import Mathlib

/-!
Verification of the ReminderRelay sync core against its specification.

The Go source is shallowly embedded: Go strings become `List Char`,
`time.Time` becomes a civil UTC datetime paired with a display offset,
fallible operations return `Except`/`Option`, and the reconciler's
adapter and store calls are recorded as an explicit trace, with an
environment supplying each call's outcome.  SHA-256 itself is not
re-implemented: `Item.ContentHash` is modelled by the exact byte string
the Go code feeds to the digest (the digest is a deterministic function
of that string, so hash equality questions reduce to input equality;
collision-resistance of SHA-256 is out of scope).
-/

/-- Go strings are byte strings; every string this program manipulates is
modelled as a list of characters. -/
abbrev Str := List Char

/-- Decimal digit character for `d < 10` (explicit match so proofs reduce). -/
def digitChar : Nat → Char
  | 0 => '0'
  | 1 => '1'
  | 2 => '2'
  | 3 => '3'
  | 4 => '4'
  | 5 => '5'
  | 6 => '6'
  | 7 => '7'
  | 8 => '8'
  | _ => '9'

/-- Numeric value of a decimal digit character. -/
def digitVal (c : Char) : Nat := c.toNat - 48

/-- Whether `c` is a decimal digit (ASCII `'0'`–`'9'`). -/
def isDigitChar (c : Char) : Bool := 48 ≤ c.toNat && c.toNat ≤ 57

/-- Fixed-width zero-padded decimal rendering, most significant digit first.
Mirrors Go's `%0wd` style formatting used by `time.Time.Format`. -/
def padDigits : Nat → Nat → Str
  | 0, _ => []
  | w + 1, n => padDigits w (n / 10) ++ [digitChar (n % 10)]

/-- Value of a digit string (most significant digit first). -/
def digitsVal (s : Str) : Nat := s.foldl (fun acc c => acc * 10 + digitVal c) 0

/-- Read exactly `w` decimal digits, extending accumulator `acc`; returns the
accumulated value and the rest of the input. -/
def readDigitsAux (acc : Nat) : Nat → Str → Option (Nat × Str)
  | 0, s => some (acc, s)
  | w + 1, c :: s => if isDigitChar c then readDigitsAux (acc * 10 + digitVal c) w s else none
  | _ + 1, [] => none

/-- Read exactly `w` decimal digits from the front of `s`. -/
def readDigits (w : Nat) (s : Str) : Option (Nat × Str) := readDigitsAux 0 w s

/-- Drop trailing `'0'` characters (Go's `time` package trims trailing zeros
of the fractional second under the `.999999999` layout). -/
def trimTrailingZeros (s : Str) : Str := (s.reverse.dropWhile (· == '0')).reverse

/-- Civil datetime fields. A value denotes the UTC wall-clock reading of an
instant; for in-range fields, lexicographic field order coincides with the
order of instants, which is how `time.Time.Before` is modelled. -/
structure DateTime where
  year : Nat
  month : Nat
  day : Nat
  hour : Nat
  minute : Nat
  second : Nat
  nsec : Nat
deriving DecidableEq, Repr

/-- The UTC civil reading of Go's zero `time.Time`
(January 1, year 1, 00:00:00 UTC). -/
def DateTime.zero : DateTime := ⟨1, 1, 1, 0, 0, 0, 0⟩

/-- Field list, most significant first, for lexicographic comparison. -/
def DateTime.fields (d : DateTime) : List Nat :=
  [d.year, d.month, d.day, d.hour, d.minute, d.second, d.nsec]

/-- Strict lexicographic order on equal-length lists of naturals. -/
def natListLt : List Nat → List Nat → Bool
  | [], _ => false
  | _ :: _, [] => false
  | a :: as, b :: bs => a < b || (a == b && natListLt as bs)

/-- Go `time.Time`: the instant is carried by its UTC civil fields `dt`
(which determine the instant for RFC-3339-expressible times); `offsetMin`
records the location's display offset, which `Format` would use and which
`.UTC()` resets to zero. -/
structure GoTime where
  dt : DateTime
  offsetMin : Int
deriving DecidableEq, Repr

/-- Go's zero `time.Time`. -/
def GoTime.zero : GoTime := ⟨DateTime.zero, 0⟩

/-- `time.Time.Before` compares absolute instants: modelled as lexicographic
order on the UTC civil fields. -/
def GoTime.before (a b : GoTime) : Bool := natListLt a.dt.fields b.dt.fields

/-- `time.Time.IsZero`: the instant equals the zero time. -/
def GoTime.isZero (t : GoTime) : Bool := t.dt == DateTime.zero

/-- `time.Time.UTC`: same instant, presentation offset zero. -/
def GoTime.utc (t : GoTime) : GoTime := ⟨t.dt, 0⟩

/-- RFC 3339 rendering at seconds precision of a UTC civil datetime
(Go's `time.RFC3339` layout applied to a time in UTC). -/
def formatRFC3339 (d : DateTime) : Str :=
  padDigits 4 d.year ++ '-' :: padDigits 2 d.month ++ '-' :: padDigits 2 d.day ++
    'T' :: padDigits 2 d.hour ++ ':' :: padDigits 2 d.minute ++ ':' :: padDigits 2 d.second ++
    ['Z']

/-- Fractional-second suffix under Go's `.999999999` layout: empty when
`nsec = 0`, otherwise a dot followed by the 9-digit fraction with trailing
zeros trimmed. -/
def fracPart (nsec : Nat) : Str :=
  if nsec == 0 then [] else '.' :: trimTrailingZeros (padDigits 9 nsec)

/-- RFC 3339 rendering at nanosecond precision of a UTC civil datetime
(Go's `time.RFC3339Nano` layout applied to a time in UTC). -/
def formatRFC3339Nano (d : DateTime) : Str :=
  padDigits 4 d.year ++ '-' :: padDigits 2 d.month ++ '-' :: padDigits 2 d.day ++
    'T' :: padDigits 2 d.hour ++ ':' :: padDigits 2 d.minute ++ ':' :: padDigits 2 d.second ++
    fracPart d.nsec ++ ['Z']

/-- Priority levels (`model.Priority`): the program only ever constructs the
four canonical EventKit representatives 0, 1, 5 and 9. -/
inductive Priority where
  | nonePr
  | high
  | medium
  | low
deriving DecidableEq, Repr

/-- The canonical EventKit integer behind each level (0, 1, 5, 9). -/
def Priority.toNat : Priority → Nat
  | .nonePr => 0
  | .high => 1
  | .medium => 5
  | .low => 9

/-- Decimal rendering of the priority integer, as `fmt.Fprintf("%d", p)`
produces inside `Item.ContentHash`. -/
def priorityDigits : Priority → Str
  | .nonePr => ['0']
  | .high => ['1']
  | .medium => ['5']
  | .low => ['9']

/-- Go `%t` rendering of a boolean. -/
def boolStr : Bool → Str
  | true => ['t', 'r', 'u', 'e']
  | false => ['f', 'a', 'l', 's', 'e']

/-- `model.Item`: the normalised task representation. -/
structure Item where
  uid : Str
  title : Str
  description : Str
  dueDate : Option GoTime
  priority : Priority
  completed : Bool
  modifiedAt : GoTime
  listName : Str
deriving DecidableEq, Repr

/-- The due-date bytes inside the hash input: the RFC 3339 UTC rendering at
seconds precision, or empty when the item has no due date. -/
def Item.dueField (i : Item) : Str :=
  match i.dueDate with
  | some t => formatRFC3339 t.utc.dt
  | none => []

/-- The exact byte string `Item.ContentHash` feeds to SHA-256: title,
description, due date (RFC 3339 in UTC, or empty when nil), priority and
completed flag, separated by `'|'`. -/
def Item.contentHashInput (i : Item) : Str :=
  i.title ++ '|' :: i.description ++ '|' ::
    i.dueField ++ '|' :: priorityDigits i.priority ++ '|' :: boolStr i.completed

/-- `Item.ContentHash` modelled by the digest's input bytes: SHA-256 is a
deterministic function of this string, so two hashes are equal exactly when
the code's digests of equal inputs are (collisions of SHA-256 itself are out
of scope for this development). -/
def Item.ContentHash (i : Item) : Str := i.contentHashInput

/-- The `"[High] "` description tag. -/
def prefixHigh : Str := ['[', 'H', 'i', 'g', 'h', ']', ' ']

/-- The `"[Medium] "` description tag. -/
def prefixMedium : Str := ['[', 'M', 'e', 'd', 'i', 'u', 'm', ']', ' ']

/-- The `"[Low] "` description tag. -/
def prefixLow : Str := ['[', 'L', 'o', 'w', ']', ' ']

/-- Go `strings.HasPrefix s pfx`. -/
def hasPrefixStr : Str → Str → Bool
  | _, [] => true
  | [], _ :: _ => false
  | c :: s, p :: ps => c == p && hasPrefixStr s ps

/-- Go `strings.TrimPrefix s pfx`. -/
def trimPrefixStr (s pfx : Str) : Str :=
  if hasPrefixStr s pfx then s.drop pfx.length else s

/-- `model.EncodePriorityPrefix`: prepend the priority tag for storage in
Home Assistant. -/
def EncodePriorityPrefix (p : Priority) (description : Str) : Str :=
  match p with
  | .high => prefixHigh ++ description
  | .medium => prefixMedium ++ description
  | .low => prefixLow ++ description
  | .nonePr => description

/-- `model.DecodePriorityPrefix`: strip the priority tag from an HA
description, returning the priority and the clean text. -/
def DecodePriorityPrefix (description : Str) : Priority × Str :=
  if hasPrefixStr description prefixHigh then
    (Priority.high, trimPrefixStr description prefixHigh)
  else if hasPrefixStr description prefixMedium then
    (Priority.medium, trimPrefixStr description prefixMedium)
  else if hasPrefixStr description prefixLow then
    (Priority.low, trimPrefixStr description prefixLow)
  else
    (Priority.nonePr, description)

/-- `state.Item`: one row of the `sync_items` ledger table. -/
structure StateItem where
  id : Int
  remindersUID : Str
  haUID : Str
  listName : Str
  title : Str
  lastSyncHash : Str
  remindersModified : GoTime
  haModified : GoTime
  lastSyncedAt : GoTime
deriving DecidableEq, Repr

/-- The reconciler's `action` enumeration. -/
inductive SyncAction where
  | noAction
  | createInHA
  | createInRem
  | updateHA
  | updateRem
  | deleteFromHA
  | deleteFromRem
deriving DecidableEq, Repr

/-- `sync.Stats`: mutation counters of one reconcile pass. -/
structure Stats where
  created : Nat
  updated : Nat
  deleted : Nat
  conflicts : Nat
  errors : Nat
deriving DecidableEq, Repr

/-- The all-zero statistics. -/
def Stats.zero : Stats := ⟨0, 0, 0, 0, 0⟩

/-- Componentwise sum of statistics (how `Run` aggregates per-list stats). -/
def Stats.add (a b : Stats) : Stats :=
  ⟨a.created + b.created, a.updated + b.updated, a.deleted + b.deleted,
    a.conflicts + b.conflicts, a.errors + b.errors⟩

/-- One adapter or ledger-store call the reconciler can issue. The adapter
calls mutate or read Reminders/Home Assistant; the store calls mutate the
ledger. -/
inductive Call where
  | haRemoveItem (entityID title : Str)
  | haUpdateItem (entityID currentTitle : Str) (item : Item)
  | haAddItem (entityID : Str) (item : Item)
  | haGetItems (entityID : Str)
  | remDelete (uid : Str)
  | remUpdate (uid : Str) (item : Item)
  | remCreate (item : Item)
  | storeDeleteItem (id : Int)
  | storeUpsertItem (row : StateItem)
deriving DecidableEq, Repr

/-- Whether a call touches an adapter (mutates or reads Reminders or Home
Assistant) rather than the ledger store. -/
def Call.isAdapterCall : Call → Bool
  | .storeDeleteItem _ => false
  | .storeUpsertItem _ => false
  | _ => true

/-- Environment resolving the outcome of each external call: whether it
succeeds, the UID Reminders assigns on create, and the item list a Home
Assistant refetch returns. -/
structure Env where
  callOk : Call → Bool
  remCreateUID : Item → Str
  haGetItemsResult : Str → List Item

/-- What happened to the ledger row a successful `execute` acted on. -/
inductive RowChange where
  | unchanged
  | deleted
  | upserted (row : StateItem)
deriving DecidableEq, Repr

/-- Look up an item by UID in a slice that Go indexes into a `map[string]`:
when two slice elements share a UID the later one overwrites the earlier, so
the lookup finds the last occurrence. -/
def lookupByUID (items : List Item) (uid : Str) : Option Item :=
  items.reverse.find? (fun it => it.uid == uid)

/-- `Reconciler.decide`: choose the action for a tracked ledger row from
presence, content hashes and (on conflict) `ModifiedAt` comparison. -/
def Reconciler.decide (si : StateItem) (remItem haItem : Option Item) : SyncAction :=
  match remItem, haItem with
  | none, none => SyncAction.deleteFromHA
  | none, some _ => SyncAction.deleteFromHA
  | some _, none => SyncAction.deleteFromRem
  | some rem, some ha =>
    let remChanged := Item.ContentHash rem != si.lastSyncHash
    let haChanged := Item.ContentHash ha != si.lastSyncHash
    if !remChanged && !haChanged then SyncAction.noAction
    else if remChanged && !haChanged then SyncAction.updateHA
    else if !remChanged && haChanged then SyncAction.updateRem
    else if !(GoTime.before rem.modifiedAt ha.modifiedAt) then SyncAction.updateHA
    else SyncAction.updateRem

/-- `Reconciler.execute`: dispatch the decided action through the adapters
and update the ledger row. Returns the outcome (an error when a call fails)
and the trace of calls attempted, in order. The `updateHA`/`updateRem`
branches require the corresponding item; the Go code dereferences it
unconditionally there (`decide` only produces them with both items present),
so the model returns an error on the unreachable nil case. -/
def Reconciler.execute (env : Env) (act : SyncAction) (si : StateItem)
    (remItem haItem : Option Item) (entityID : Str) (now : GoTime) :
    Except Unit RowChange × List Call :=
  match act with
  | .noAction => (Except.ok RowChange.unchanged, [])
  | .createInHA =>
    -- Defensive branch: a tracked row should never decide a create; the
    -- source cleans up the state row only.
    let c := Call.storeDeleteItem si.id
    (if env.callOk c then Except.ok RowChange.deleted else Except.error (), [c])
  | .createInRem =>
    let c := Call.storeDeleteItem si.id
    (if env.callOk c then Except.ok RowChange.deleted else Except.error (), [c])
  | .deleteFromHA =>
    match haItem with
    | some ha =>
      let c := Call.haRemoveItem entityID ha.title
      if env.callOk c then
        let d := Call.storeDeleteItem si.id
        (if env.callOk d then Except.ok RowChange.deleted else Except.error (), [c, d])
      else (Except.error (), [c])
    | none =>
      let d := Call.storeDeleteItem si.id
      (if env.callOk d then Except.ok RowChange.deleted else Except.error (), [d])
  | .deleteFromRem =>
    match remItem with
    | some rem =>
      let c := Call.remDelete rem.uid
      if env.callOk c then
        let d := Call.storeDeleteItem si.id
        (if env.callOk d then Except.ok RowChange.deleted else Except.error (), [c, d])
      else (Except.error (), [c])
    | none =>
      let d := Call.storeDeleteItem si.id
      (if env.callOk d then Except.ok RowChange.deleted else Except.error (), [d])
  | .updateHA =>
    match remItem with
    | none => (Except.error (), [])
    | some rem =>
      -- Identify the HA item by its current title (may differ from the
      -- ledger title when both sides changed).
      let currentHATitle := match haItem with
        | some ha => ha.title
        | none => si.title
      let c := Call.haUpdateItem entityID currentHATitle rem
      if env.callOk c then
        let row := { si with
          title := rem.title
          lastSyncHash := Item.ContentHash rem
          remindersModified := rem.modifiedAt
          lastSyncedAt := now }
        let u := Call.storeUpsertItem row
        (if env.callOk u then Except.ok (RowChange.upserted row) else Except.error (), [c, u])
      else (Except.error (), [c])
  | .updateRem =>
    match haItem with
    | none => (Except.error (), [])
    | some ha =>
      let c := Call.remUpdate si.remindersUID ha
      if env.callOk c then
        let row := { si with
          title := ha.title
          lastSyncHash := Item.ContentHash ha
          haModified := ha.modifiedAt
          lastSyncedAt := now }
        let u := Call.storeUpsertItem row
        (if env.callOk u then Except.ok (RowChange.upserted row) else Except.error (), [c, u])
      else (Except.error (), [c])

/-- `Reconciler.createInHA`: push a new Reminders item to HA, refetch to
discover the assigned HA UID by exact title match (first match; empty when
none matches), and upsert the new ledger row. Returns the row written on
success and the call trace. -/
def Reconciler.createInHA (env : Env) (remItem : Item) (entityID : Str)
    (now : GoTime) : Except Unit StateItem × List Call :=
  let a := Call.haAddItem entityID remItem
  if env.callOk a then
    let g := Call.haGetItems entityID
    if env.callOk g then
      let haItems := env.haGetItemsResult entityID
      let haUID := (match haItems.find? (fun h => h.title == remItem.title) with
        | some h => h.uid
        | none => [])
      let row : StateItem := {
        id := 0
        remindersUID := remItem.uid
        haUID := haUID
        listName := remItem.listName
        title := remItem.title
        lastSyncHash := Item.ContentHash remItem
        remindersModified := remItem.modifiedAt
        haModified := GoTime.zero
        lastSyncedAt := now }
      let u := Call.storeUpsertItem row
      (if env.callOk u then Except.ok row else Except.error (), [a, g, u])
    else (Except.error (), [a, g])
  else (Except.error (), [a])

/-- `Reconciler.createInReminders`: create the HA item locally using the UID
Reminders returns, and upsert the new ledger row. -/
def Reconciler.createInReminders (env : Env) (haItem : Item) (_entityID : Str)
    (now : GoTime) : Except Unit StateItem × List Call :=
  let c := Call.remCreate haItem
  if env.callOk c then
    let uid := env.remCreateUID haItem
    let row : StateItem := {
      id := 0
      remindersUID := uid
      haUID := haItem.uid
      listName := haItem.listName
      title := haItem.title
      lastSyncHash := Item.ContentHash haItem
      remindersModified := GoTime.zero
      haModified := haItem.modifiedAt
      lastSyncedAt := now }
    let u := Call.storeUpsertItem row
    (if env.callOk u then Except.ok row else Except.error (), [c, u])
  else (Except.error (), [c])

/-- Statistics increment after a successful `execute`, mirroring the switch
in `reconcileList`: creates, updates (with the conflict check against the
hash captured before execution) and deletes. -/
def Reconciler.statsAfter (stats : Stats) (act : SyncAction) (oldHash : Str)
    (remItem haItem : Option Item) : Stats :=
  match act with
  | .createInHA | .createInRem => { stats with created := stats.created + 1 }
  | .updateHA | .updateRem =>
    let stats := { stats with updated := stats.updated + 1 }
    match remItem, haItem with
    | some rem, some ha =>
      if Item.ContentHash rem != oldHash && Item.ContentHash ha != oldHash then
        { stats with conflicts := stats.conflicts + 1 }
      else stats
    | _, _ => stats
  | .deleteFromHA | .deleteFromRem => { stats with deleted := stats.deleted + 1 }
  | .noAction => stats

/-- Phase 1 of `reconcileList`: process the tracked ledger rows in order,
accumulating statistics, the call trace, and the processed Reminders/HA UID
sets (non-empty UIDs only, as the source records them). -/
def Reconciler.phase1 (env : Env) (entityID : Str) (remItems haItems : List Item)
    (now : GoTime) : List StateItem → Stats × List Call × List Str × List Str
  | [] => (Stats.zero, [], [], [])
  | si :: rest =>
    let remItem := lookupByUID remItems si.remindersUID
    let haItem := lookupByUID haItems si.haUID
    let pRem : List Str := if si.remindersUID == [] then [] else [si.remindersUID]
    let pHA : List Str := if si.haUID == [] then [] else [si.haUID]
    let act := Reconciler.decide si remItem haItem
    let oldHash := si.lastSyncHash
    let (res, calls) := Reconciler.execute env act si remItem haItem entityID now
    let stepStats := match res with
      | Except.error _ => { Stats.zero with errors := 1 }
      | Except.ok _ => Reconciler.statsAfter Stats.zero act oldHash remItem haItem
    let (stats, trace, pr, ph) := Reconciler.phase1 env entityID remItems haItems now rest
    (Stats.add stepStats stats, calls ++ trace, pRem ++ pr, pHA ++ ph)

/-- Insert-or-overwrite by UID, modelling assignment into a Go
`map[string]*model.Item` while retaining a deterministic iteration order
(first-insertion order; Go's map order is unspecified, and no claim proved
here depends on the order). -/
def upsertByUID (acc : List Item) (it : Item) : List Item :=
  if acc.any (fun a => a.uid == it.uid) then
    acc.map (fun a => if a.uid == it.uid then it else a)
  else acc ++ [it]

/-- The entries of the Go `map[string]*model.Item` built from a slice: one
item per UID, the last occurrence winning. -/
def dedupByUID (items : List Item) : List Item := items.foldl upsertByUID []

/-- Phase 2, Reminders side: each mapped-list Reminders item whose UID was
not processed in phase 1 is new locally and is pushed to HA. -/
def Reconciler.phase2Rem (env : Env) (listName entityID : Str) (now : GoTime)
    (processedRem : List Str) : List Item → Stats × List Call
  | [] => (Stats.zero, [])
  | it :: rest =>
    let (stats, trace) := Reconciler.phase2Rem env listName entityID now processedRem rest
    if it.listName != listName then (stats, trace)
    else if processedRem.contains it.uid then (stats, trace)
    else
      let (res, calls) := Reconciler.createInHA env it entityID now
      let stepStats := match res with
        | Except.error _ => { Stats.zero with errors := 1 }
        | Except.ok _ => { Stats.zero with created := 1 }
      (Stats.add stepStats stats, calls ++ trace)

/-- Phase 2, HA side: each HA item whose UID was not processed in phase 1 is
new remotely and is created in Reminders. -/
def Reconciler.phase2HA (env : Env) (entityID : Str) (now : GoTime)
    (processedHA : List Str) : List Item → Stats × List Call
  | [] => (Stats.zero, [])
  | it :: rest =>
    let (stats, trace) := Reconciler.phase2HA env entityID now processedHA rest
    if processedHA.contains it.uid then (stats, trace)
    else
      let (res, calls) := Reconciler.createInReminders env it entityID now
      let stepStats := match res with
        | Except.error _ => { Stats.zero with errors := 1 }
        | Except.ok _ => { Stats.zero with created := 1 }
      (Stats.add stepStats stats, calls ++ trace)

/-- Tag each fetched HA item with the list's name, as `reconcileList` and
`matchByTitle` both do before indexing. -/
def mapListName (listName : Str) (items : List Item) : List Item :=
  items.map (fun h => { h with listName := listName })

/-- `Reconciler.reconcileList` after its three fetches: `remItems` are the
Reminders items fetched across the mapped lists, `haItems0` the HA items of
the entity (whose `ListName` the source sets to the list's name), and
`stateItems` the ledger rows of the list. Returns the aggregate statistics
and the full trace of adapter and store calls. -/
def Reconciler.reconcileList (env : Env) (listName entityID : Str)
    (remItems haItems0 : List Item) (stateItems : List StateItem)
    (now : GoTime) : Stats × List Call :=
  let haItems := mapListName listName haItems0
  let (s1, t1, pRem, pHA) := Reconciler.phase1 env entityID remItems haItems now stateItems
  let (s2, t2) := Reconciler.phase2Rem env listName entityID now pRem (dedupByUID remItems)
  let (s3, t3) := Reconciler.phase2HA env entityID now pHA (dedupByUID haItems)
  (Stats.add (Stats.add s1 s2) s3, t1 ++ t2 ++ t3)

/-- Abstract actions of the specification's Phase-1 decision table. -/
inductive TableAction where
  | cleanupOnly
  | deleteRemote
  | deleteLocal
  | noAction
  | updateRemoteFromLocal
  | updateLocalFromRemote
  | createRemote
  | createLocal
deriving DecidableEq, Repr

/-- Reading of a reconciler action as a table action, given the presence of
the local (Reminders) and remote (HA) items: `deleteFromHA` with both sides
absent is the ledger-cleanup-only row, otherwise it deletes the remote item. -/
def interpretAction : SyncAction → Option Item → Option Item → TableAction
  | .deleteFromHA, none, none => .cleanupOnly
  | .deleteFromHA, _, _ => .deleteRemote
  | .deleteFromRem, _, _ => .deleteLocal
  | .noAction, _, _ => .noAction
  | .updateHA, _, _ => .updateRemoteFromLocal
  | .updateRem, _, _ => .updateLocalFromRemote
  | .createInHA, _, _ => .createRemote
  | .createInRem, _, _ => .createLocal

/-- The Phase-1 decision table as the claim states it (the specification's
words, kept separate from the source-derived `Reconciler.decide` so the two
can be compared): presence decides deletes, hash comparison against the
ledger baseline decides updates, and on a two-sided divergence the later
`ModifiedAt` wins with ties resolved in favour of the local (Reminders)
side. -/
def phase1SpecTable (si : StateItem) (localItem remoteItem : Option Item) : TableAction :=
  match localItem, remoteItem with
  | none, none => .cleanupOnly
  | none, some _ => .deleteRemote
  | some _, none => .deleteLocal
  | some l, some r =>
    let localDiffers := Item.ContentHash l != si.lastSyncHash
    let remoteDiffers := Item.ContentHash r != si.lastSyncHash
    if !localDiffers && !remoteDiffers then .noAction
    else if localDiffers && !remoteDiffers then .updateRemoteFromLocal
    else if !localDiffers && remoteDiffers then .updateLocalFromRemote
    else if GoTime.before r.modifiedAt l.modifiedAt then .updateRemoteFromLocal
    else if GoTime.before l.modifiedAt r.modifiedAt then .updateLocalFromRemote
    else .updateRemoteFromLocal

/-- Result of `matchByTitle` for one list mapping. -/
structure MatchResult where
  listName : Str
  entityID : Str
  matched : List (Item × Item)
  remOnly : List Item
  haOnly : List Item
deriving DecidableEq, Repr

/-- Lowercased string, modelling Go's `strings.ToLower` on the titles this
program compares (per-character case folding). -/
def lowerStr (s : Str) : Str := s.map Char.toLower

/-- Lookup in the `haByTitle` map built by `matchByTitle`: keyed by the
lowercased title, the later of two same-key slice elements overwriting the
earlier. -/
def haByTitleLookup (haItems : List Item) (key : Str) : Option Item :=
  haItems.reverse.find? (fun h => lowerStr h.title == key)

/-- The Reminders-side loop of `matchByTitle`: in order, each Reminders item
whose lowercased title is a key of `haByTitle` forms a matched pair and the
key is recorded; the rest go to `remOnly`. Returns (matched, remOnly,
matched keys). -/
def matchRemLoop (haItems : List Item) : List Item → List (Item × Item) × List Item × List Str
  | [] => ([], [], [])
  | r :: rs =>
    let (m, ro, ks) := matchRemLoop haItems rs
    match haByTitleLookup haItems (lowerStr r.title) with
    | some h => ((r, h) :: m, ro, lowerStr r.title :: ks)
    | none => (m, r :: ro, ks)

/-- `sync.matchByTitle`: case-insensitive exact-title matching between the
Reminders items of a list and the HA items of its entity; HA items whose
lowercased title was never matched become `haOnly`. -/
def matchByTitle (listName entityID : Str) (remItems haItems0 : List Item) : MatchResult :=
  let haItems := mapListName listName haItems0
  let (m, ro, ks) := matchRemLoop haItems remItems
  { listName := listName
    entityID := entityID
    matched := m
    remOnly := ro
    haOnly := haItems.filter (fun h => !ks.contains (lowerStr h.title)) }

/-- One iteration of `Bootstrap.execute`'s Reminders-only loop: push the
item to HA, refetch the entity's items, title-match (exact, case-sensitive)
to capture the HA UID — empty when nothing matches — and upsert the ledger
row. -/
def Bootstrap.pushRemOnly (env : Env) (listName entityID : Str) (item : Item)
    (now : GoTime) : Except Unit StateItem × List Call :=
  let a := Call.haAddItem entityID item
  if env.callOk a then
    let g := Call.haGetItems entityID
    if env.callOk g then
      let haItems := env.haGetItemsResult entityID
      let haUID := (match haItems.find? (fun h => h.title == item.title) with
        | some h => h.uid
        | none => [])
      let row : StateItem := {
        id := 0
        remindersUID := item.uid
        haUID := haUID
        listName := listName
        title := item.title
        lastSyncHash := Item.ContentHash item
        remindersModified := item.modifiedAt
        haModified := GoTime.zero
        lastSyncedAt := now }
      let u := Call.storeUpsertItem row
      (if env.callOk u then Except.ok row else Except.error (), [a, g, u])
    else (Except.error (), [a, g])
  else (Except.error (), [a])

/-- Error cases of the `Retry` helper: cancellation observed before an
attempt, cancellation observed during a backoff sleep, or all attempts
exhausted (wrapping the last failure, `none` when no attempt ran). -/
inductive RetryErr where
  | cancelledBeforeAttempt
  | cancelledDuringBackoff
  | attemptsExhausted (lastErr : Option Str)
deriving DecidableEq, Repr

/-- The loop of `homeassistant.Retry`, modelled over three oracles:
`cb a` is whether `ctx.Err()` reports cancellation at the check before
attempt `a`, `cd a` whether cancellation fires during the backoff sleep
after attempt `a`, and `oc a` the outcome of invocation `a` (`none` =
success, `some msg` = failure). Returns the result (`none` = success) and
the number of invocations of the wrapped call. -/
def RetryAux (cb cd : Nat → Bool) (oc : Nat → Option Str) :
    Nat → Nat → Option Str → Option RetryErr × Nat
  | _, 0, lastErr => (some (RetryErr.attemptsExhausted lastErr), 0)
  | attempt, remaining + 1, _ =>
    if cb attempt then (some RetryErr.cancelledBeforeAttempt, 0)
    else
      match oc attempt with
      | none => (none, 1)
      | some e =>
        if 0 < remaining then
          if cd attempt then (some RetryErr.cancelledDuringBackoff, 1)
          else
            let rest := RetryAux cb cd oc (attempt + 1) remaining (some e)
            (rest.1, rest.2 + 1)
        else
          -- last attempt: the loop ends and the exhausted error wraps the
          -- final failure
          (some (RetryErr.attemptsExhausted (some e)), 1)

/-- `homeassistant.Retry` with `maxAttempts` attempts. -/
def Retry (cb cd : Nat → Bool) (oc : Nat → Option Str) (maxAttempts : Nat) :
    Option RetryErr × Nat :=
  RetryAux cb cd oc 0 maxAttempts none

/-- `defaultMaxAttempts = 3`: every adapter REST call passes this bound to
`Retry`. -/
def defaultMaxAttempts : Nat := 3

/-- `baseDelay` in nanoseconds (500 ms). -/
def baseDelay : Nat := 500000000

/-- `maxDelay` in nanoseconds (5 s). -/
def maxDelay : Nat := 5000000000

/-- `homeassistant.backoffDelay` with the jitter draw made explicit: the raw
exponential delay is capped at `maxDelay`, and `jitter` models the value of
`rand.Int63n(delay/2)`, so the caller must keep it below `delay/2`. -/
def backoffDelay (attempt : Nat) (jitter : Nat) : Nat :=
  let delay := min (baseDelay * 2 ^ attempt) maxDelay
  delay / 2 + jitter

/-- The error message `haClientWrapper.CallService` produces for HTTP 401. -/
def callService401Msg : Str := "HA returned 401 Unauthorized — check ha_token".toList

/-- The error `haClientWrapper.CallService` returns for a response status:
a 400 echoes the body's message, a 401 yields the fixed credential message,
any other status ≥ 300 a generic status error; otherwise success. Every
outcome is a plain message — no distinguished error kind exists. -/
def CallServiceError (status : Nat) (badRequestMessage genericStatusMessage : Str) :
    Option Str :=
  if status == 400 then some badRequestMessage
  else if status == 401 then some callService401Msg
  else if 300 ≤ status then some genericStatusMessage
  else none

/-- `state.formatTime`: the zero instant becomes the empty string, any other
instant its RFC 3339 nanosecond rendering in UTC. -/
def formatTime (t : GoTime) : Str :=
  if t.isZero then [] else formatRFC3339Nano t.utc.dt

/-- Consume one expected literal character. -/
def expectChar (c : Char) : Str → Option Str
  | x :: s => if x == c then some s else none
  | [] => none

/-- Parse an optional fractional second under the `.999999999` layout: a dot
followed by one to nine digits scales up to nanoseconds; absent means zero. -/
def parseFracOpt : Str → Option (Nat × Str)
  | '.' :: rest =>
    let ds := rest.takeWhile isDigitChar
    if ds.length == 0 || 9 < ds.length then none
    else some (digitsVal ds * 10 ^ (9 - ds.length), rest.dropWhile isDigitChar)
  | s => some (0, s)

/-- Gregorian leap-year rule, as Go's `time` package applies it. -/
def isLeapYear (y : Nat) : Bool := y % 4 == 0 && (y % 100 != 0 || y % 400 == 0)

/-- Days in a month (month in 1..12, otherwise 0). -/
def daysInMonth (y m : Nat) : Nat :=
  match m with
  | 1 => 31
  | 2 => if isLeapYear y then 29 else 28
  | 3 => 31
  | 4 => 30
  | 5 => 31
  | 6 => 30
  | 7 => 31
  | 8 => 31
  | 9 => 30
  | 10 => 31
  | 11 => 30
  | 12 => 31
  | _ => 0

/-- The range checks Go's `time.Parse` applies to parsed components. -/
def validDate (d : DateTime) : Bool :=
  1 ≤ d.month && d.month ≤ 12 && 1 ≤ d.day && d.day ≤ daysInMonth d.year d.month &&
    d.hour ≤ 23 && d.minute ≤ 59 && d.second ≤ 59 && d.nsec < 1000000000

/-- Parse of an RFC 3339 nanosecond timestamp in UTC (`time.RFC3339Nano`
layout with the `Z` offset designator). Go's parser additionally accepts
numeric `±hh:mm` offsets, which `formatTime` never writes — the ledger only
ever stores UTC strings — so that branch is outside the model. -/
def parseRFC3339Nano (s : Str) : Option DateTime := do
  let (y, s) ← readDigits 4 s
  let s ← expectChar '-' s
  let (mo, s) ← readDigits 2 s
  let s ← expectChar '-' s
  let (d, s) ← readDigits 2 s
  let s ← expectChar 'T' s
  let (h, s) ← readDigits 2 s
  let s ← expectChar ':' s
  let (mi, s) ← readDigits 2 s
  let s ← expectChar ':' s
  let (sec, s) ← readDigits 2 s
  let (ns, s) ← parseFracOpt s
  let s ← expectChar 'Z' s
  if s.isEmpty then
    let dt : DateTime := ⟨y, mo, d, h, mi, sec, ns⟩
    if validDate dt then some dt else none
  else none

/-- `state.parseTime`: the empty string denotes the zero instant; any other
stored string is parsed as RFC 3339 with nanoseconds (`none` models the
error return). A parsed time is in UTC. -/
def parseTime (s : Str) : Option GoTime :=
  if s.isEmpty then some GoTime.zero
  else (parseRFC3339Nano s).map (fun dt => ⟨dt, 0⟩)

/-- A datetime the ledger can faithfully store: the RFC-3339-expressible
range (four-digit year) with the ranges `time.Parse` enforces. -/
def storable (d : DateTime) : Bool := d.year ≤ 9999 && validDate d

/-- Phase-1's record of processed Reminders UIDs: the non-empty
`RemindersUID`s of the tracked rows, in order. -/
def processedRemUIDs (rows : List StateItem) : List Str :=
  rows.foldr (fun si acc => (if si.remindersUID == [] then [] else [si.remindersUID]) ++ acc) []

/-- Phase-1's record of processed HA UIDs. -/
def processedHAUIDs (rows : List StateItem) : List Str :=
  rows.foldr (fun si acc => (if si.haUID == [] then [] else [si.haUID]) ++ acc) []

/-- An environment in which every external call succeeds, Reminders assigns
a fixed fresh UID, and HA refetches return nothing. -/
def envAll : Env := ⟨fun _ => true, fun _ => ['n', 'e', 'w'], fun _ => []⟩

/-- A blank item used to build concrete instances. -/
def blankItem : Item := ⟨[], [], [], none, Priority.nonePr, false, GoTime.zero, []⟩

/-- A concrete instant in year `y`. -/
def sampleTime (y : Nat) : GoTime := ⟨⟨y, 1, 1, 0, 0, 0, 0⟩, 0⟩

/-- A concrete Reminders-side item for instantiating the no-op pass. -/
def itemRemW : Item :=
  ⟨['r'], ['t'], [], none, Priority.nonePr, false, sampleTime 2026, ['l']⟩

/-- The HA-side counterpart of `itemRemW`: same syncable content, its own
UID (the adapter's fetched items carry no list name until the reconciler
tags them). -/
def itemHAW : Item :=
  ⟨['h'], ['t'], [], none, Priority.nonePr, false, sampleTime 2026, []⟩

/-- The ledger row linking `itemRemW` and `itemHAW` at their current
content hash. -/
def rowW : StateItem :=
  ⟨1, ['r'], ['h'], ['l'], ['t'], Item.ContentHash itemRemW,
    sampleTime 2026, sampleTime 2026, sampleTime 2026⟩

/-- A local item titled `"x"` for the matching witness. -/
def itemLx : Item := { blankItem with title := ['x'], uid := ['1'] }

/-- A remote item titled `"X"` (case-insensitively equal to `itemLx`). -/
def itemHX : Item := { blankItem with title := ['X'], uid := ['h'] }

theorem hasPrefixStr_nil (s : Str) : hasPrefixStr s [] = true := by
  cases s <;> rfl

theorem hasPrefixStr_self_append (p d : Str) : hasPrefixStr (p ++ d) p = true := by
  induction p with
  | nil => simpa using hasPrefixStr_nil d
  | cons c cs ih => simp [hasPrefixStr, ih]

theorem trimPrefixStr_self_append (p d : Str) : trimPrefixStr (p ++ d) p = d := by
  simp [trimPrefixStr, hasPrefixStr_self_append, List.drop_left]

theorem medium_not_high (d : Str) : hasPrefixStr (prefixMedium ++ d) prefixHigh = false := rfl

theorem low_not_high (d : Str) : hasPrefixStr (prefixLow ++ d) prefixHigh = false := rfl

theorem low_not_medium (d : Str) : hasPrefixStr (prefixLow ++ d) prefixMedium = false := rfl

/-- C3 (amended): `DecodePriorityPrefix` inverts `EncodePriorityPrefix` for
every priority and description, except that a `None`-priority description
may not itself begin with one of the three priority tags — encoding with
`None` prepends nothing, so decoding would strip the description's own tag. -/
theorem priority_roundtrip (p : Priority) (d : Str)
    (h : p ≠ Priority.nonePr ∨
      (hasPrefixStr d prefixHigh = false ∧ hasPrefixStr d prefixMedium = false ∧
        hasPrefixStr d prefixLow = false)) :
    DecodePriorityPrefix (EncodePriorityPrefix p d) = (p, d) := by
  cases p with
  | nonePr =>
    rcases h with h | ⟨h1, h2, h3⟩
    · exact absurd rfl h
    · simp [EncodePriorityPrefix, DecodePriorityPrefix, h1, h2, h3]
  | high =>
    simp [EncodePriorityPrefix, DecodePriorityPrefix, hasPrefixStr_self_append,
      trimPrefixStr_self_append]
  | medium =>
    simp [EncodePriorityPrefix, DecodePriorityPrefix, hasPrefixStr_self_append,
      trimPrefixStr_self_append, medium_not_high]
  | low =>
    simp [EncodePriorityPrefix, DecodePriorityPrefix, hasPrefixStr_self_append,
      trimPrefixStr_self_append, low_not_high, low_not_medium]

/-- C3 (counterexample): with priority `None` and a description that itself
starts with `"[High] "`, the decode of the encode returns `High` and the
stripped description, not the original pair — the claim's unrestricted
round-trip fails. -/
theorem priority_roundtrip_counterexample :
    DecodePriorityPrefix (EncodePriorityPrefix Priority.nonePr (prefixHigh ++ ['x'])) ≠
      (Priority.nonePr, prefixHigh ++ ['x']) := by decide

/-- C3 (witness): the amended round-trip at priority `High` and
description `"a"`. -/
theorem priority_roundtrip_witness :
    DecodePriorityPrefix (EncodePriorityPrefix Priority.high ['a']) = (Priority.high, ['a']) :=
  priority_roundtrip Priority.high ['a'] (Or.inl (by decide))

theorem digitChar_isDigit (d : Nat) : isDigitChar (digitChar d) = true := by
  match d with
  | 0 => rfl
  | 1 => rfl
  | 2 => rfl
  | 3 => rfl
  | 4 => rfl
  | 5 => rfl
  | 6 => rfl
  | 7 => rfl
  | 8 => rfl
  | _ + 9 => rfl

theorem mem_padDigits_isDigit (w : Nat) : ∀ n c, c ∈ padDigits w n → isDigitChar c = true := by
  induction w with
  | zero => intro n c hc; simp [padDigits] at hc
  | succ w ih =>
    intro n c hc
    simp only [padDigits, List.mem_append, List.mem_singleton] at hc
    rcases hc with hc | hc
    · exact ih _ _ hc
    · subst hc; exact digitChar_isDigit _

theorem pipe_not_mem_padDigits (w n : Nat) : '|' ∉ padDigits w n := by
  intro h
  exact absurd (mem_padDigits_isDigit w n '|' h) (by decide)

theorem pipe_not_mem_formatRFC3339 (d : DateTime) : '|' ∉ formatRFC3339 d := by
  intro h
  simp only [formatRFC3339, List.cons_append, List.mem_append, List.mem_cons,
    List.mem_singleton, List.not_mem_nil, or_assoc] at h
  rcases h with h | h | h | h | h | h | h | h | h | h | h | h <;>
    first
      | exact pipe_not_mem_padDigits _ _ h
      | exact absurd h (by decide)

theorem pipe_not_mem_dueField (i : Item) : '|' ∉ i.dueField := by
  unfold Item.dueField
  match i.dueDate with
  | some t => exact pipe_not_mem_formatRFC3339 _
  | none => simp

theorem pipe_not_mem_priorityDigits (p : Priority) : '|' ∉ priorityDigits p := by
  cases p <;> decide

theorem pipe_not_mem_boolStr (b : Bool) : '|' ∉ boolStr b := by
  cases b <;> decide

theorem append_pipe_inj : ∀ (a : Str) {b x y : Str}, '|' ∉ a → '|' ∉ b →
    a ++ '|' :: x = b ++ '|' :: y → a = b ∧ x = y := by
  intro a
  induction a with
  | nil =>
    intro b x y _ hb h
    cases b with
    | nil => simpa using h
    | cons c bs =>
      simp only [List.nil_append, List.cons_append, List.cons.injEq] at h
      exact absurd (h.1 ▸ List.mem_cons_self c bs) hb
  | cons c as ih =>
    intro b x y ha hb h
    cases b with
    | nil =>
      simp only [List.cons_append, List.nil_append, List.cons.injEq] at h
      exact absurd (h.1 ▸ List.mem_cons_self c as) ha
    | cons c' bs =>
      simp only [List.cons_append, List.cons.injEq] at h
      obtain ⟨rfl, h2⟩ := h
      have has : '|' ∉ as := fun hm => ha (List.mem_cons_of_mem _ hm)
      have hbs : '|' ∉ bs := fun hm => hb (List.mem_cons_of_mem _ hm)
      obtain ⟨rfl, hxy⟩ := ih has hbs h2
      exact ⟨rfl, hxy⟩

theorem priorityDigits_inj {p q : Priority} (h : priorityDigits p = priorityDigits q) :
    p = q := by
  cases p <;> cases q <;> first | rfl | exact absurd h (by decide)

theorem boolStr_inj {a b : Bool} (h : boolStr a = boolStr b) : a = b := by
  cases a <;> cases b <;> first | rfl | exact absurd h (by decide)

/-- C4 (amended): the content hash is a deterministic digest over title,
description, due date (RFC 3339 UTC or empty), priority and completed flag,
joined by the separator byte `'|'`; that byte can occur in the free-text
title and description, so the digest input determines the five fields only
when those two are separator-free — and `ModifiedAt` and `UID` never
influence the hash. -/
theorem content_hash_fields (i1 i2 : Item)
    (h1t : '|' ∉ i1.title) (h1d : '|' ∉ i1.description)
    (h2t : '|' ∉ i2.title) (h2d : '|' ∉ i2.description) :
    (Item.ContentHash i1 = Item.ContentHash i2 →
      i1.title = i2.title ∧ i1.description = i2.description ∧
        i1.dueField = i2.dueField ∧ i1.priority = i2.priority ∧
        i1.completed = i2.completed) ∧
    (∀ m u, Item.ContentHash { i1 with modifiedAt := m, uid := u } = Item.ContentHash i1) := by
  constructor
  · intro h
    unfold Item.ContentHash Item.contentHashInput at h
    simp only [List.append_assoc, List.cons_append] at h
    obtain ⟨ht, h⟩ := append_pipe_inj _ h1t h2t h
    obtain ⟨hd, h⟩ := append_pipe_inj _ h1d h2d h
    obtain ⟨hdue, h⟩ :=
      append_pipe_inj _ (pipe_not_mem_dueField i1) (pipe_not_mem_dueField i2) h
    obtain ⟨hp, hb⟩ :=
      append_pipe_inj _ (pipe_not_mem_priorityDigits i1.priority)
        (pipe_not_mem_priorityDigits i2.priority) h
    exact ⟨ht, hd, hdue, priorityDigits_inj hp, boolStr_inj hb⟩
  · intro m u; rfl

/-- C4 (counterexample): the separator `'|'` does occur in field values —
two items that differ in title and description produce the same digest
input, so the byte string fed to the digest does not uniquely determine the
five fields. -/
theorem content_hash_counterexample :
    Item.ContentHash { blankItem with title := ['a', '|', 'b'] } =
      Item.ContentHash { blankItem with title := ['a'], description := ['b', '|'] } ∧
    ({ blankItem with title := ['a', '|', 'b'] } : Item).title ≠
      ({ blankItem with title := ['a'], description := ['b', '|'] } : Item).title := by
  decide

/-- C4 (witness): the amended field determination at two separator-free
items. -/
theorem content_hash_fields_witness :
    (Item.ContentHash blankItem = Item.ContentHash blankItem →
      blankItem.title = blankItem.title ∧ blankItem.description = blankItem.description ∧
        blankItem.dueField = blankItem.dueField ∧ blankItem.priority = blankItem.priority ∧
        blankItem.completed = blankItem.completed) ∧
    (∀ m u, Item.ContentHash { blankItem with modifiedAt := m, uid := u } =
      Item.ContentHash blankItem) :=
  content_hash_fields blankItem blankItem (by decide) (by decide) (by decide) (by decide)

theorem natListLt_asymm : ∀ a b : List Nat, natListLt a b = true → natListLt b a = false := by
  intro a
  induction a with
  | nil => intro b h; cases b <;> simp [natListLt] at h
  | cons x as ih =>
    intro b h
    cases b with
    | nil => simp [natListLt] at h
    | cons y bs =>
      simp only [natListLt, Bool.or_eq_true, Bool.and_eq_true, decide_eq_true_eq,
        beq_iff_eq] at h ⊢
      simp only [Bool.or_eq_false_iff, Bool.and_eq_false_iff, decide_eq_false_iff_not,
        beq_eq_false_iff_ne, ne_eq]
      rcases h with h | ⟨rfl, h2⟩
      · exact ⟨by omega, Or.inl (by omega)⟩
      · exact ⟨by omega, Or.inr (ih bs h2)⟩

/-- C1: for every tracked ledger row, the reconciler's decision function
realises the Phase-1 table — both sides absent is ledger-row cleanup only
(the decided action's execution issues exactly the ledger delete and no
adapter call), presence mismatches delete the surviving side, hash
comparison against the baseline decides updates, and a two-sided divergence
is resolved by the later `ModifiedAt` with ties won by the local
(Reminders) side. -/
theorem decide_matches_phase1_table :
    (∀ si remItem haItem,
      interpretAction (Reconciler.decide si remItem haItem) remItem haItem =
        phase1SpecTable si remItem haItem) ∧
    (∀ env si entityID now,
      (Reconciler.execute env (Reconciler.decide si none none) si none none entityID now).2 =
        [Call.storeDeleteItem si.id]) := by
  constructor
  · intro si remItem haItem
    match remItem, haItem with
    | none, none => rfl
    | none, some ha => rfl
    | some rem, none => rfl
    | some rem, some ha =>
      simp only [Reconciler.decide, phase1SpecTable]
      cases hrc : (Item.ContentHash rem != si.lastSyncHash) <;>
        cases hhc : (Item.ContentHash ha != si.lastSyncHash)
      · simp [interpretAction]
      · simp [interpretAction]
      · simp [interpretAction]
      · -- both sides diverged: last-write-wins with ties to Reminders
        cases hb : GoTime.before rem.modifiedAt ha.modifiedAt
        · cases hb2 : GoTime.before ha.modifiedAt rem.modifiedAt <;>
            simp [hb, hb2, interpretAction]
        · have hb' : natListLt rem.modifiedAt.dt.fields ha.modifiedAt.dt.fields = true := hb
          have hasym : GoTime.before ha.modifiedAt rem.modifiedAt = false :=
            natListLt_asymm _ _ hb'
          simp [hb, hasym, interpretAction]
  · intro env si entityID now
    rfl

/-- C9 (amended): after a successful update, the ledger row is upserted with
`Title` and `LastSyncHash` from the winning side's item, the winning side's
observed `ModifiedAt` written to that side's modified column — the losing
side's modified column keeps its previous row value — and `LastSyncedAt`
set to the pass's current time. -/
theorem ledger_upsert_after_update (env : Env) (si : StateItem) (rem ha : Item)
    (entityID : Str) (now : GoTime) (hok : ∀ c, env.callOk c = true) :
    (Reconciler.execute env SyncAction.updateHA si (some rem) (some ha) entityID now).1 =
      Except.ok (RowChange.upserted { si with
        title := rem.title
        lastSyncHash := Item.ContentHash rem
        remindersModified := rem.modifiedAt
        lastSyncedAt := now }) ∧
    (Reconciler.execute env SyncAction.updateRem si (some rem) (some ha) entityID now).1 =
      Except.ok (RowChange.upserted { si with
        title := ha.title
        lastSyncHash := Item.ContentHash ha
        haModified := ha.modifiedAt
        lastSyncedAt := now }) := by
  constructor <;> simp [Reconciler.execute, hok]

/-- C9 (counterexample): the claim's row — with `RemoteModified` taken from
the remote item's observed `ModifiedAt` — is not what a successful
local-wins update writes: the code leaves the remote-side modified column
at its previous row value. -/
theorem ledger_upsert_counterexample :
    (Reconciler.execute envAll SyncAction.updateHA
        { id := 1, remindersUID := ['r'], haUID := ['h'], listName := [], title := [],
          lastSyncHash := [], remindersModified := GoTime.zero, haModified := GoTime.zero,
          lastSyncedAt := GoTime.zero }
        (some { blankItem with uid := ['r'], modifiedAt := sampleTime 2026 })
        (some { blankItem with uid := ['h'], modifiedAt := sampleTime 2027 })
        [] GoTime.zero).1 =
      Except.ok (RowChange.upserted
        { id := 1, remindersUID := ['r'], haUID := ['h'], listName := [], title := [],
          lastSyncHash := Item.ContentHash { blankItem with uid := ['r'], modifiedAt := sampleTime 2026 },
          remindersModified := sampleTime 2026, haModified := GoTime.zero,
          lastSyncedAt := GoTime.zero }) ∧
    ({ id := 1, remindersUID := ['r'], haUID := ['h'], listName := [], title := [],
       lastSyncHash := Item.ContentHash { blankItem with uid := ['r'], modifiedAt := sampleTime 2026 },
       remindersModified := sampleTime 2026, haModified := GoTime.zero,
       lastSyncedAt := GoTime.zero } : StateItem) ≠
    { id := 1, remindersUID := ['r'], haUID := ['h'], listName := [], title := [],
      lastSyncHash := Item.ContentHash { blankItem with uid := ['r'], modifiedAt := sampleTime 2026 },
      remindersModified := sampleTime 2026, haModified := sampleTime 2027,
      lastSyncedAt := GoTime.zero } := by
  constructor
  · rfl
  · decide

/-- C9 (witness): the amended upsert shape at a concrete successful update. -/
theorem ledger_upsert_after_update_witness :
    (Reconciler.execute envAll SyncAction.updateHA
        { id := 1, remindersUID := ['r'], haUID := ['h'], listName := [], title := [],
          lastSyncHash := [], remindersModified := GoTime.zero, haModified := GoTime.zero,
          lastSyncedAt := GoTime.zero }
        (some blankItem) (some blankItem) [] GoTime.zero).1 =
      Except.ok (RowChange.upserted
        { ({ id := 1, remindersUID := ['r'], haUID := ['h'], listName := [], title := [],
             lastSyncHash := [], remindersModified := GoTime.zero, haModified := GoTime.zero,
             lastSyncedAt := GoTime.zero } : StateItem) with
          title := blankItem.title
          lastSyncHash := Item.ContentHash blankItem
          remindersModified := blankItem.modifiedAt
          lastSyncedAt := GoTime.zero }) :=
  (ledger_upsert_after_update envAll _ blankItem blankItem [] GoTime.zero
    (fun _ => rfl)).1

/-- C10: when the post-create refetch contains no item with the exact
(case-sensitive) title, both the reconciler's create-in-HA path and the
bootstrap push still succeed and write a ledger row whose HA UID is the
empty string. -/
theorem create_without_uid (env : Env) (item : Item) (listName entityID : Str)
    (now : GoTime) (hok : ∀ c, env.callOk c = true)
    (hmiss : ∀ h ∈ env.haGetItemsResult entityID, h.title ≠ item.title) :
    (Reconciler.createInHA env item entityID now).1 =
      Except.ok
        { id := 0, remindersUID := item.uid, haUID := [], listName := item.listName,
          title := item.title, lastSyncHash := Item.ContentHash item,
          remindersModified := item.modifiedAt, haModified := GoTime.zero,
          lastSyncedAt := now } ∧
    (Bootstrap.pushRemOnly env listName entityID item now).1 =
      Except.ok
        { id := 0, remindersUID := item.uid, haUID := [], listName := listName,
          title := item.title, lastSyncHash := Item.ContentHash item,
          remindersModified := item.modifiedAt, haModified := GoTime.zero,
          lastSyncedAt := now } := by
  have hfind : (env.haGetItemsResult entityID).find? (fun h => h.title == item.title) = none := by
    rw [List.find?_eq_none]
    intro x hx
    simpa using hmiss x hx
  constructor <;> simp [Reconciler.createInHA, Bootstrap.pushRemOnly, hok, hfind]

/-- C10 (witness): the refetch-miss create at a concrete item with an
environment whose refetch returns nothing. -/
theorem create_without_uid_witness :
    (Reconciler.createInHA envAll blankItem [] GoTime.zero).1 =
      Except.ok
        { id := 0, remindersUID := blankItem.uid, haUID := [],
          listName := blankItem.listName, title := blankItem.title,
          lastSyncHash := Item.ContentHash blankItem,
          remindersModified := blankItem.modifiedAt, haModified := GoTime.zero,
          lastSyncedAt := GoTime.zero } ∧
    (Bootstrap.pushRemOnly envAll [] [] blankItem GoTime.zero).1 =
      Except.ok
        { id := 0, remindersUID := blankItem.uid, haUID := [], listName := [],
          title := blankItem.title, lastSyncHash := Item.ContentHash blankItem,
          remindersModified := blankItem.modifiedAt, haModified := GoTime.zero,
          lastSyncedAt := GoTime.zero } :=
  create_without_uid envAll blankItem [] [] GoTime.zero (fun _ => rfl)
    (fun h hh => absurd hh (List.not_mem_nil h))

theorem retryAux_step (cb cd : Nat → Bool) (oc : Nat → Option Str) (a r : Nat)
    (l : Option Str) (e : Str) (h1 : cb a = false) (h2 : oc a = some e)
    (h3 : cd a = false) :
    RetryAux cb cd oc a (r + 2) l =
      ((RetryAux cb cd oc (a + 1) (r + 1) (some e)).1,
        (RetryAux cb cd oc (a + 1) (r + 1) (some e)).2 + 1) := by
  simp [RetryAux, h1, h2, h3]

theorem retryAux_calls_le (cb cd : Nat → Bool) (oc : Nat → Option Str) :
    ∀ (r a : Nat) (l : Option Str), (RetryAux cb cd oc a r l).2 ≤ r := by
  intro r
  induction r with
  | zero => intro a l; simp [RetryAux]
  | succ r ih =>
    intro a l
    cases hcb : cb a with
    | true => simp [RetryAux, hcb]
    | false =>
      cases hoc : oc a with
      | none => simp [RetryAux, hcb, hoc]
      | some e =>
        cases r with
        | zero => simp [RetryAux, hcb, hoc]
        | succ r' =>
          cases hcd : cd a with
          | true => simp [RetryAux, hcb, hoc, hcd]
          | false =>
            have := ih (a + 1) (some e)
            rw [retryAux_step cb cd oc a r' l e hcb hoc hcd]
            omega

theorem retryAux_success_iff (cb cd : Nat → Bool) (oc : Nat → Option Str) :
    ∀ (r a : Nat) (l : Option Str),
      ((RetryAux cb cd oc a r l).1 = none ↔
        ∃ i, a ≤ i ∧ i < a + (RetryAux cb cd oc a r l).2 ∧ oc i = none) := by
  intro r
  induction r with
  | zero =>
    intro a l
    simp only [RetryAux]
    constructor
    · intro h; cases h
    · rintro ⟨i, h1, h2, -⟩; omega
  | succ r ih =>
    intro a l
    cases hcb : cb a with
    | true =>
      have hval : RetryAux cb cd oc a (r + 1) l = (some RetryErr.cancelledBeforeAttempt, 0) := by
        simp [RetryAux, hcb]
      rw [hval]
      constructor
      · intro h; cases h
      · rintro ⟨i, h1, h2, -⟩; omega
    | false =>
      cases hoc : oc a with
      | none =>
        have hval : RetryAux cb cd oc a (r + 1) l = (none, 1) := by
          simp [RetryAux, hcb, hoc]
        rw [hval]
        constructor
        · intro _; exact ⟨a, Nat.le_refl a, by omega, hoc⟩
        · intro _; rfl
      | some e =>
        cases r with
        | zero =>
          have hval : RetryAux cb cd oc a 1 l =
              (some (RetryErr.attemptsExhausted (some e)), 1) := by
            simp [RetryAux, hcb, hoc]
          rw [hval]
          constructor
          · intro h; cases h
          · rintro ⟨i, h1, h2, h3⟩
            have : i = a := by omega
            rw [this, hoc] at h3
            cases h3
        | succ r' =>
          cases hcd : cd a with
          | true =>
            have hval : RetryAux cb cd oc a (r' + 2) l =
                (some RetryErr.cancelledDuringBackoff, 1) := by
              simp [RetryAux, hcb, hoc, hcd]
            rw [hval]
            constructor
            · intro h; cases h
            · rintro ⟨i, h1, h2, h3⟩
              have : i = a := by omega
              rw [this, hoc] at h3
              cases h3
          | false =>
            rw [retryAux_step cb cd oc a r' l e hcb hoc hcd]
            have IH := ih (a + 1) (some e)
            constructor
            · intro h
              obtain ⟨i, h1, h2, h3⟩ := IH.mp h
              exact ⟨i, by omega, by omega, h3⟩
            · rintro ⟨i, h1, h2, h3⟩
              apply IH.mpr
              have hia : i ≠ a := by
                intro hia
                rw [hia, hoc] at h3
                cases h3
              exact ⟨i, by omega, by omega, h3⟩

/-- C5: the retry wrapper with the adapter's `defaultMaxAttempts = 3`
invokes the wrapped call at most three times; it succeeds exactly when one
of its invocations succeeds; cancellation observed before an attempt stops
the retry with zero further invocations, and cancellation during a backoff
sleep stops it right after the single invocation made, both with an error
carrying the cancellation; and the backoff delay before retry attempt
`a ∈ {0, 1}` lies in `[d/2, d)` for `d = min(500 ms · 2^a, 5 s)`. -/
theorem retry_contract :
    (∀ cb cd oc, (Retry cb cd oc defaultMaxAttempts).2 ≤ 3) ∧
    (∀ cb cd oc, ((Retry cb cd oc defaultMaxAttempts).1 = none ↔
      ∃ i, i < (Retry cb cd oc defaultMaxAttempts).2 ∧ oc i = none)) ∧
    (∀ cb cd oc a r l, cb a = true →
      RetryAux cb cd oc a (r + 1) l = (some RetryErr.cancelledBeforeAttempt, 0)) ∧
    (∀ cb cd oc a r l e, cb a = false → oc a = some e → cd a = true →
      RetryAux cb cd oc a (r + 2) l = (some RetryErr.cancelledDuringBackoff, 1)) ∧
    (∀ a j, a < 2 → j < min (baseDelay * 2 ^ a) maxDelay / 2 →
      min (baseDelay * 2 ^ a) maxDelay / 2 ≤ backoffDelay a j ∧
        backoffDelay a j < min (baseDelay * 2 ^ a) maxDelay) := by
  refine ⟨?_, ?_, ?_, ?_, ?_⟩
  · intro cb cd oc
    exact retryAux_calls_le cb cd oc 3 0 none
  · intro cb cd oc
    have h := retryAux_success_iff cb cd oc 3 0 none
    simpa [Retry] using h
  · intro cb cd oc a r l h
    simp [RetryAux, h]
  · intro cb cd oc a r l e h1 h2 h3
    simp [RetryAux, h1, h2, h3]
  · intro a j _ hj
    have hbd : backoffDelay a j = min (baseDelay * 2 ^ a) maxDelay / 2 + j := rfl
    rw [hbd]
    generalize min (baseDelay * 2 ^ a) maxDelay = d at hj ⊢
    omega

/-- C5 (witness): the retry contract's bound, the cancellation-before stop
and the first backoff window at concrete oracles. -/
theorem retry_contract_witness :
    (Retry (fun _ => false) (fun _ => false) (fun _ => none) defaultMaxAttempts).2 ≤ 3 ∧
    RetryAux (fun _ => true) (fun _ => false) (fun _ => none) 0 3 none =
      (some RetryErr.cancelledBeforeAttempt, 0) ∧
    (min (baseDelay * 2 ^ 0) maxDelay / 2 ≤ backoffDelay 0 0 ∧
      backoffDelay 0 0 < min (baseDelay * 2 ^ 0) maxDelay) :=
  ⟨retry_contract.1 _ _ _,
    retry_contract.2.2.1 _ _ _ 0 2 none rfl,
    retry_contract.2.2.2.2 0 0 (by decide) (by decide)⟩

/-- C6 (amended): an HTTP 401 from a REST call produces a plain error
message that the retry wrapper treats like any other failure — with a
persistently rejecting service the call is invoked all three times and the
failure is returned as the exhausted-attempts error wrapping the 401
message; no distinguished credential error kind exists in the code. -/
theorem auth_failure_retried (m g : Str) :
    CallServiceError 401 m g = some callService401Msg ∧
    Retry (fun _ => false) (fun _ => false) (fun _ => CallServiceError 401 m g)
        defaultMaxAttempts =
      (some (RetryErr.attemptsExhausted (some callService401Msg)), 3) := by
  exact ⟨rfl, rfl⟩

/-- C6 (counterexample): against the claim's single-attempt terminal
behaviour, a persistent 401 is attempted three times, not once. -/
theorem auth_failure_counterexample :
    (Retry (fun _ => false) (fun _ => false) (fun _ => CallServiceError 401 [] [])
        defaultMaxAttempts).2 = 3 ∧
    (Retry (fun _ => false) (fun _ => false) (fun _ => CallServiceError 401 [] [])
        defaultMaxAttempts).2 ≠ 1 := by
  exact ⟨rfl, by decide⟩


theorem mem_processedRemUIDs : ∀ (rows : List StateItem) (si : StateItem), si ∈ rows →
    si.remindersUID ≠ [] → si.remindersUID ∈ processedRemUIDs rows := by
  intro rows
  induction rows with
  | nil => intro si h; cases h
  | cons r rest ih =>
    intro si hmem hne
    rcases List.mem_cons.mp hmem with rfl | hmem
    · simp [processedRemUIDs, hne]
    · have := ih si hmem hne
      by_cases hr : r.remindersUID = []
      · simpa [processedRemUIDs, hr] using this
      · simp [processedRemUIDs, hr]
        right
        simpa [processedRemUIDs] using this

theorem mem_processedHAUIDs : ∀ (rows : List StateItem) (si : StateItem), si ∈ rows →
    si.haUID ≠ [] → si.haUID ∈ processedHAUIDs rows := by
  intro rows
  induction rows with
  | nil => intro si h; cases h
  | cons r rest ih =>
    intro si hmem hne
    rcases List.mem_cons.mp hmem with rfl | hmem
    · simp [processedHAUIDs, hne]
    · have := ih si hmem hne
      by_cases hr : r.haUID = []
      · simpa [processedHAUIDs, hr] using this
      · simp [processedHAUIDs, hr]
        right
        simpa [processedHAUIDs] using this

theorem mem_upsertByUID {acc : List Item} {a x : Item} (h : x ∈ upsertByUID acc a) :
    x ∈ acc ∨ x = a := by
  unfold upsertByUID at h
  by_cases hany : acc.any (fun b => b.uid == a.uid)
  · rw [if_pos hany] at h
    obtain ⟨y, hy, hxy⟩ := List.mem_map.mp h
    by_cases hyu : y.uid == a.uid
    · rw [if_pos hyu] at hxy; exact Or.inr hxy.symm
    · rw [if_neg hyu] at hxy; exact Or.inl (hxy ▸ hy)
  · rw [if_neg hany] at h
    rcases List.mem_append.mp h with h | h
    · exact Or.inl h
    · exact Or.inr (List.mem_singleton.mp h)

theorem mem_foldl_upsertByUID : ∀ (items acc : List Item) (x : Item),
    x ∈ items.foldl upsertByUID acc → x ∈ acc ∨ x ∈ items := by
  intro items
  induction items with
  | nil => intro acc x h; exact Or.inl h
  | cons a as ih =>
    intro acc x h
    rcases ih (upsertByUID acc a) x h with h | h
    · rcases mem_upsertByUID h with h | rfl
      · exact Or.inl h
      · exact Or.inr (List.mem_cons_self _ _)
    · exact Or.inr (List.mem_cons_of_mem _ h)

theorem mem_dedupByUID {items : List Item} {x : Item} (h : x ∈ dedupByUID items) :
    x ∈ items := by
  rcases mem_foldl_upsertByUID items [] x h with h | h
  · cases h
  · exact h

theorem phase1_noop (env : Env) (entityID : Str) (remItems haItems : List Item)
    (now : GoTime) : ∀ rows : List StateItem,
    (∀ si ∈ rows, ∃ rem ha,
      lookupByUID remItems si.remindersUID = some rem ∧
      lookupByUID haItems si.haUID = some ha ∧
      Item.ContentHash rem = si.lastSyncHash ∧ Item.ContentHash ha = si.lastSyncHash) →
    Reconciler.phase1 env entityID remItems haItems now rows =
      (Stats.zero, [], processedRemUIDs rows, processedHAUIDs rows) := by
  intro rows
  induction rows with
  | nil => intro _; rfl
  | cons si rest ih =>
    intro h
    obtain ⟨rem, ha, h1, h2, h3, h4⟩ := h si (List.mem_cons_self _ _)
    have hrest := ih (fun si' hsi' => h si' (List.mem_cons_of_mem _ hsi'))
    have hdec : Reconciler.decide si (some rem) (some ha) = SyncAction.noAction := by
      simp [Reconciler.decide, h3, h4]
    simp [Reconciler.phase1, h1, h2, hdec, Reconciler.execute, Reconciler.statsAfter,
      hrest, Stats.add, Stats.zero, processedRemUIDs, processedHAUIDs]

theorem phase2Rem_noop (env : Env) (listName entityID : Str) (now : GoTime)
    (processed : List Str) : ∀ items : List Item,
    (∀ it ∈ items, it.listName = listName → it.uid ∈ processed) →
    Reconciler.phase2Rem env listName entityID now processed items = (Stats.zero, []) := by
  intro items
  induction items with
  | nil => intro _; rfl
  | cons it rest ih =>
    intro h
    have hrest := ih (fun x hx => h x (List.mem_cons_of_mem _ hx))
    by_cases hl : it.listName = listName
    · have hc := h it (List.mem_cons_self _ _) hl
      have hbne : (it.listName != listName) = false := by simp [hl]
      simp [Reconciler.phase2Rem, hrest, hbne, hc]
    · have hbne : (it.listName != listName) = true := by simp [hl]
      simp [Reconciler.phase2Rem, hrest, hbne]

theorem phase2HA_noop (env : Env) (entityID : Str) (now : GoTime)
    (processed : List Str) : ∀ items : List Item,
    (∀ it ∈ items, it.uid ∈ processed) →
    Reconciler.phase2HA env entityID now processed items = (Stats.zero, []) := by
  intro items
  induction items with
  | nil => intro _; rfl
  | cons it rest ih =>
    intro h
    have hrest := ih (fun x hx => h x (List.mem_cons_of_mem _ hx))
    have hc := h it (List.mem_cons_self _ _)
    simp [Reconciler.phase2HA, hrest, hc]

/-- C2: a reconcile pass over unchanged inputs is a no-op — when every
tracked row resolves to present items on both sides whose content hashes
equal the row's baseline, and every item of the mapped list on either side
is tracked, the pass reports all-zero statistics and issues no adapter or
ledger-store call at all (so no side and no ledger row is modified). -/
theorem reconcile_noop (env : Env) (listName entityID : Str)
    (remItems haItems0 : List Item) (rows : List StateItem) (now : GoTime)
    (htracked : ∀ si ∈ rows, ∃ rem ha,
      lookupByUID remItems si.remindersUID = some rem ∧
      lookupByUID (mapListName listName haItems0) si.haUID = some ha ∧
      Item.ContentHash rem = si.lastSyncHash ∧ Item.ContentHash ha = si.lastSyncHash)
    (hremAll : ∀ it ∈ remItems, it.listName = listName →
      it.uid ≠ [] ∧ ∃ si ∈ rows, si.remindersUID = it.uid)
    (hhaAll : ∀ it ∈ mapListName listName haItems0,
      it.uid ≠ [] ∧ ∃ si ∈ rows, si.haUID = it.uid) :
    Reconciler.reconcileList env listName entityID remItems haItems0 rows now =
      (Stats.zero, []) := by
  have h2 : Reconciler.phase2Rem env listName entityID now (processedRemUIDs rows)
      (dedupByUID remItems) = (Stats.zero, []) := by
    apply phase2Rem_noop
    intro it hit hl
    obtain ⟨hne, si, hsi, huid⟩ := hremAll it (mem_dedupByUID hit) hl
    have := mem_processedRemUIDs rows si hsi (by rw [huid]; exact hne)
    rw [huid] at this
    exact this
  have h3 : Reconciler.phase2HA env entityID now (processedHAUIDs rows)
      (dedupByUID (mapListName listName haItems0)) = (Stats.zero, []) := by
    apply phase2HA_noop
    intro it hit
    obtain ⟨hne, si, hsi, huid⟩ := hhaAll it (mem_dedupByUID hit)
    have := mem_processedHAUIDs rows si hsi (by rw [huid]; exact hne)
    rw [huid] at this
    exact this
  have h1 := phase1_noop env entityID remItems (mapListName listName haItems0) now rows htracked
  simp [Reconciler.reconcileList, h1, h2, h3, Stats.add, Stats.zero]

/-- C2 (witness): the no-op pass at one tracked row whose two sides match
the baseline. -/
theorem reconcile_noop_witness :
    Reconciler.reconcileList envAll ['l'] ['e'] [itemRemW] [itemHAW] [rowW]
      (sampleTime 2027) = (Stats.zero, []) :=
  reconcile_noop envAll ['l'] ['e'] [itemRemW] [itemHAW] [rowW] (sampleTime 2027)
    (by
      intro si hsi
      rw [List.mem_singleton] at hsi
      subst hsi
      exact ⟨itemRemW, { itemHAW with listName := ['l'] }, rfl, rfl, rfl, rfl⟩)
    (by
      intro it hit hl
      rw [List.mem_singleton] at hit
      subst hit
      exact ⟨by decide, rowW, List.mem_singleton.mpr rfl, rfl⟩)
    (by
      intro it hit
      rw [show mapListName ['l'] [itemHAW] = [{ itemHAW with listName := ['l'] }] from rfl,
        List.mem_singleton] at hit
      subst hit
      exact ⟨by decide, rowW, List.mem_singleton.mpr rfl, rfl⟩)

theorem key_mapListName (listName : Str) (items : List Item) :
    (mapListName listName items).map (fun x => lowerStr x.title) =
      items.map (fun x => lowerStr x.title) := by
  simp [mapListName, List.map_map]

theorem find?_key_unique : ∀ (L : List Item) (h : Item),
    (L.map (fun x => lowerStr x.title)).Nodup → h ∈ L →
    L.find? (fun x => lowerStr x.title == lowerStr h.title) = some h := by
  intro L
  induction L with
  | nil => intro h _ hm; cases hm
  | cons a as ih =>
    intro h hnd hm
    rw [List.map_cons, List.nodup_cons] at hnd
    rcases List.mem_cons.mp hm with rfl | hm
    · exact List.find?_cons_of_pos _ (by simp)
    · have hka : (lowerStr a.title == lowerStr h.title) = false := by
        rw [beq_eq_false_iff_ne]
        intro he
        exact hnd.1 (he ▸ List.mem_map_of_mem _ hm)
      rw [List.find?_cons_of_neg _ (by simp [hka])]
      exact ih h hnd.2 hm

theorem lookup_self (L : List Item) (h : Item)
    (hnd : (L.map (fun x => lowerStr x.title)).Nodup) (hm : h ∈ L) :
    haByTitleLookup L (lowerStr h.title) = some h := by
  unfold haByTitleLookup
  apply find?_key_unique
  · rw [List.map_reverse]
    exact List.nodup_reverse.mpr hnd
  · exact List.mem_reverse.mpr hm

theorem lookup_key {L : List Item} {k : Str} {h : Item}
    (hl : haByTitleLookup L k = some h) : lowerStr h.title = k ∧ h ∈ L := by
  unfold haByTitleLookup at hl
  have h1 := List.find?_some hl
  have h2 := List.mem_of_find?_eq_some hl
  exact ⟨by simpa using h1, List.mem_reverse.mp h2⟩

theorem matchRemLoop_spec (ha : List Item) : ∀ rs : List Item,
    (∀ p ∈ (matchRemLoop ha rs).1, haByTitleLookup ha (lowerStr p.1.title) = some p.2) ∧
    ((matchRemLoop ha rs).1.map Prod.fst).Sublist rs ∧
    ((matchRemLoop ha rs).2.1).Sublist rs ∧
    (∀ r ∈ rs, r ∈ (matchRemLoop ha rs).1.map Prod.fst ∨ r ∈ (matchRemLoop ha rs).2.1) ∧
    (∀ r ∈ (matchRemLoop ha rs).2.1, haByTitleLookup ha (lowerStr r.title) = none) ∧
    ((matchRemLoop ha rs).2.2 = (matchRemLoop ha rs).1.map (fun p => lowerStr p.1.title)) := by
  intro rs
  induction rs with
  | nil => refine ⟨?_, ?_, ?_, ?_, ?_, ?_⟩ <;> simp [matchRemLoop]
  | cons r rs ih =>
    obtain ⟨ih1, ih2, ih3, ih4, ih5, ih6⟩ := ih
    cases hlk : haByTitleLookup ha (lowerStr r.title) with
    | some h =>
      have hval : matchRemLoop ha (r :: rs) =
          ((r, h) :: (matchRemLoop ha rs).1, (matchRemLoop ha rs).2.1,
            lowerStr r.title :: (matchRemLoop ha rs).2.2) := by
        simp [matchRemLoop, hlk]
      rw [hval]
      dsimp only
      refine ⟨?_, ?_, ?_, ?_, ?_, ?_⟩
      · intro p hp
        rcases List.mem_cons.mp hp with rfl | hp
        · exact hlk
        · exact ih1 p hp
      · simpa using ih2.cons₂ r
      · exact ih3.cons r
      · intro x hx
        rcases List.mem_cons.mp hx with rfl | hx
        · left; simp
        · rcases ih4 x hx with hm | hm
          · left; simp only [List.map_cons]; exact List.mem_cons_of_mem _ hm
          · right; exact hm
      · exact ih5
      · simp [ih6]
    | none =>
      have hval : matchRemLoop ha (r :: rs) =
          ((matchRemLoop ha rs).1, r :: (matchRemLoop ha rs).2.1,
            (matchRemLoop ha rs).2.2) := by
        simp [matchRemLoop, hlk]
      rw [hval]
      dsimp only
      refine ⟨ih1, ih2.cons r, ih3.cons₂ r, ?_, ?_, ih6⟩
      · intro x hx
        rcases List.mem_cons.mp hx with rfl | hx
        · right; exact List.mem_cons_self _ _
        · rcases ih4 x hx with hm | hm
          · left; exact hm
          · right; exact List.mem_cons_of_mem _ hm
      · intro x hx
        rcases List.mem_cons.mp hx with rfl | hx
        · exact hlk
        · exact ih5 x hx

theorem matchByTitle_eq (l e : Str) (rem ha0 : List Item) :
    matchByTitle l e rem ha0 =
      { listName := l, entityID := e,
        matched := (matchRemLoop (mapListName l ha0) rem).1,
        remOnly := (matchRemLoop (mapListName l ha0) rem).2.1,
        haOnly := (mapListName l ha0).filter
          (fun h => !(matchRemLoop (mapListName l ha0) rem).2.2.contains (lowerStr h.title)) } := by
  rcases hX : matchRemLoop (mapListName l ha0) rem with ⟨m, ro, ks⟩
  simp [matchByTitle, hX]

/-- C8 (amended): bootstrap title matching is by case-insensitive exact
title equality; when each side's titles are case-insensitively distinct —
the map from lowercased title to item that the source builds is ambiguous
otherwise — every matched pair has case-insensitively equal titles, no
local or remote item appears in two matched pairs, and every item is in a
matched pair or in its side's single-sided list, never both. -/
theorem bootstrap_match_properties (listName entityID : Str) (remItems haItems0 : List Item)
    (hR : (remItems.map (fun r => lowerStr r.title)).Nodup)
    (hH : (haItems0.map (fun x => lowerStr x.title)).Nodup) :
    (∀ p ∈ (matchByTitle listName entityID remItems haItems0).matched,
      lowerStr p.1.title = lowerStr p.2.title) ∧
    ((matchByTitle listName entityID remItems haItems0).matched.map Prod.fst).Nodup ∧
    ((matchByTitle listName entityID remItems haItems0).matched.map Prod.snd).Nodup ∧
    (∀ r ∈ remItems,
      (r ∈ (matchByTitle listName entityID remItems haItems0).matched.map Prod.fst ∧
        r ∉ (matchByTitle listName entityID remItems haItems0).remOnly) ∨
      (r ∉ (matchByTitle listName entityID remItems haItems0).matched.map Prod.fst ∧
        r ∈ (matchByTitle listName entityID remItems haItems0).remOnly)) ∧
    (∀ h ∈ mapListName listName haItems0,
      (h ∈ (matchByTitle listName entityID remItems haItems0).matched.map Prod.snd ∧
        h ∉ (matchByTitle listName entityID remItems haItems0).haOnly) ∨
      (h ∉ (matchByTitle listName entityID remItems haItems0).matched.map Prod.snd ∧
        h ∈ (matchByTitle listName entityID remItems haItems0).haOnly)) := by
  have hHm : ((mapListName listName haItems0).map (fun x => lowerStr x.title)).Nodup := by
    rw [key_mapListName]; exact hH
  obtain ⟨s1, s2, s3, s4, s5, s6⟩ := matchRemLoop_spec (mapListName listName haItems0) remItems
  rw [matchByTitle_eq]
  dsimp only
  have hp1 : ∀ p ∈ (matchRemLoop (mapListName listName haItems0) remItems).1,
      lowerStr p.1.title = lowerStr p.2.title :=
    fun p hp => ((lookup_key (s1 p hp)).1).symm
  have hfsub := s2.map (fun x => lowerStr x.title)
  rw [List.map_map] at hfsub
  have hfknd : ((matchRemLoop (mapListName listName haItems0) remItems).1.map
      (fun p => lowerStr p.1.title)).Nodup := by
    refine List.Nodup.sublist ?_ hR
    exact hfsub
  have hfnd : ((matchRemLoop (mapListName listName haItems0) remItems).1.map Prod.fst).Nodup := by
    have : ((matchRemLoop (mapListName listName haItems0) remItems).1.map Prod.fst).map
        (fun x => lowerStr x.title) =
        (matchRemLoop (mapListName listName haItems0) remItems).1.map
          (fun p => lowerStr p.1.title) := by
      rw [List.map_map]
      rfl
    exact List.Nodup.of_map _ (this ▸ hfknd)
  have hsk : ((matchRemLoop (mapListName listName haItems0) remItems).1.map Prod.snd).map
      (fun x => lowerStr x.title) =
      (matchRemLoop (mapListName listName haItems0) remItems).1.map
        (fun p => lowerStr p.1.title) := by
    rw [List.map_map]
    exact List.map_congr_left (fun p hp => (hp1 p hp).symm)

  have hsnd : ((matchRemLoop (mapListName listName haItems0) remItems).1.map Prod.snd).Nodup :=
    List.Nodup.of_map _ (hsk ▸ hfknd)
  refine ⟨hp1, hfnd, hsnd, ?_, ?_⟩
  · intro r hr
    have hdisj : r ∈ (matchRemLoop (mapListName listName haItems0) remItems).1.map Prod.fst →
        r ∈ (matchRemLoop (mapListName listName haItems0) remItems).2.1 → False := by
      intro hmf hro
      obtain ⟨p, hp, hpr⟩ := List.mem_map.mp hmf
      have hsome := s1 p hp
      rw [hpr] at hsome
      rw [s5 r hro] at hsome
      cases hsome
    rcases s4 r hr with hm | hm
    · exact Or.inl ⟨hm, fun hro => hdisj hm hro⟩
    · exact Or.inr ⟨fun hmf => hdisj hmf hm, hm⟩
  · intro h hh
    by_cases hks : lowerStr h.title ∈ (matchRemLoop (mapListName listName haItems0) remItems).2.2
    · left
      obtain ⟨p, hp, hkeq⟩ := List.mem_map.mp (s6 ▸ hks)
      have hl := s1 p hp
      rw [hkeq] at hl
      have hself := lookup_self _ h hHm hh
      rw [hl] at hself
      have hph : p.2 = h := Option.some.inj hself
      constructor
      · exact List.mem_map.mpr ⟨p, hp, hph⟩
      · intro hho
        have hcond := (List.mem_filter.mp hho).2
        have hnotin : lowerStr h.title ∉
            (matchRemLoop (mapListName listName haItems0) remItems).2.2 := by
          simpa using hcond
        exact hnotin hks
    · right
      constructor
      · intro hsn
        obtain ⟨p, hp, hps⟩ := List.mem_map.mp hsn
        apply hks
        rw [s6]
        exact List.mem_map.mpr ⟨p, hp, (hp1 p hp).trans (by rw [hps])⟩
      · refine List.mem_filter.mpr ⟨hh, ?_⟩
        simp [hks]

/-- C8 (counterexample): two local items whose titles differ only in case
both match the single remote item — the remote item appears in two matched
pairs, refuting at-most-one-pair-per-item. -/
theorem bootstrap_match_counterexample :
    (matchByTitle [] [] [{ blankItem with title := ['A'], uid := ['1'] },
        { blankItem with title := ['a'], uid := ['2'] }]
      [{ blankItem with title := ['A'], uid := ['h'] }]).matched.map Prod.snd =
      [{ blankItem with title := ['A'], uid := ['h'] },
        { blankItem with title := ['A'], uid := ['h'] }] ∧
    ¬ ((matchByTitle [] [] [{ blankItem with title := ['A'], uid := ['1'] },
        { blankItem with title := ['a'], uid := ['2'] }]
      [{ blankItem with title := ['A'], uid := ['h'] }]).matched.map Prod.snd).Nodup := by
  constructor
  · rfl
  · decide

/-- C8 (witness): the matching properties at one local and one remote item
with case-insensitively equal titles. -/
theorem bootstrap_match_properties_witness :
    (∀ p ∈ (matchByTitle [] [] [itemLx] [itemHX]).matched,
      lowerStr p.1.title = lowerStr p.2.title) ∧
    ((matchByTitle [] [] [itemLx] [itemHX]).matched.map Prod.fst).Nodup ∧
    ((matchByTitle [] [] [itemLx] [itemHX]).matched.map Prod.snd).Nodup ∧
    (∀ r ∈ [itemLx],
      (r ∈ (matchByTitle [] [] [itemLx] [itemHX]).matched.map Prod.fst ∧
        r ∉ (matchByTitle [] [] [itemLx] [itemHX]).remOnly) ∨
      (r ∉ (matchByTitle [] [] [itemLx] [itemHX]).matched.map Prod.fst ∧
        r ∈ (matchByTitle [] [] [itemLx] [itemHX]).remOnly)) ∧
    (∀ h ∈ mapListName [] [itemHX],
      (h ∈ (matchByTitle [] [] [itemLx] [itemHX]).matched.map Prod.snd ∧
        h ∉ (matchByTitle [] [] [itemLx] [itemHX]).haOnly) ∨
      (h ∉ (matchByTitle [] [] [itemLx] [itemHX]).matched.map Prod.snd ∧
        h ∈ (matchByTitle [] [] [itemLx] [itemHX]).haOnly)) :=
  bootstrap_match_properties [] [] [itemLx] [itemHX] (by decide) (by decide)

theorem digitVal_digitChar (d : Nat) (h : d < 10) : digitVal (digitChar d) = d := by
  interval_cases d <;> rfl

theorem padDigits_length : ∀ w n, (padDigits w n).length = w := by
  intro w
  induction w with
  | zero => intro n; rfl
  | succ w ih => intro n; simp [padDigits, ih]

theorem foldl_padDigits : ∀ (w acc n : Nat), n < 10 ^ w →
    (padDigits w n).foldl (fun acc c => acc * 10 + digitVal c) acc = acc * 10 ^ w + n := by
  intro w
  induction w with
  | zero =>
    intro acc n h
    have : n = 0 := by simpa using h
    simp [padDigits, this]
  | succ w ih =>
    intro acc n h
    have hp : (10 : Nat) ^ (w + 1) = 10 ^ w * 10 := pow_succ 10 w
    rw [hp] at h
    have hlt : n / 10 < 10 ^ w := by
      generalize hA : (10 : Nat) ^ w = A at h
      omega
    simp only [padDigits, List.foldl_append, List.foldl_cons, List.foldl_nil]
    rw [ih acc (n / 10) hlt, digitVal_digitChar _ (Nat.mod_lt _ (by omega)), hp]
    generalize (10 : Nat) ^ w = A
    rw [← Nat.mul_assoc]
    omega

theorem digitsVal_padDigits (w n : Nat) (h : n < 10 ^ w) :
    digitsVal (padDigits w n) = n := by
  unfold digitsVal
  rw [foldl_padDigits w 0 n h]
  omega

theorem readDigitsAux_padDigits : ∀ (w acc n w2 : Nat) (rest : Str), n < 10 ^ w →
    readDigitsAux acc (w + w2) (padDigits w n ++ rest) =
      readDigitsAux (acc * 10 ^ w + n) w2 rest := by
  intro w
  induction w with
  | zero =>
    intro acc n w2 rest h
    have : n = 0 := by simpa using h
    simp [padDigits, this]
  | succ w ih =>
    intro acc n w2 rest h
    have hp : (10 : Nat) ^ (w + 1) = 10 ^ w * 10 := pow_succ 10 w
    rw [hp] at h
    have hlt : n / 10 < 10 ^ w := by
      generalize hA : (10 : Nat) ^ w = A at h
      omega
    have hshape : padDigits (w + 1) n ++ rest =
        padDigits w (n / 10) ++ (digitChar (n % 10) :: rest) := by
      simp [padDigits, List.append_assoc]
    rw [hshape]
    have hwsucc : w + 1 + w2 = w + (w2 + 1) := by omega
    rw [hwsucc, ih acc (n / 10) (w2 + 1) (digitChar (n % 10) :: rest) hlt]
    simp only [readDigitsAux, digitChar_isDigit, if_true,
      digitVal_digitChar _ (Nat.mod_lt n (by omega))]
    congr 1
    rw [hp, ← Nat.mul_assoc]
    generalize (10 : Nat) ^ w = A
    generalize acc * A = B
    omega

theorem readDigits_padDigits (w n : Nat) (rest : Str) (h : n < 10 ^ w) :
    readDigits w (padDigits w n ++ rest) = some (n, rest) := by
  unfold readDigits
  have h0 := readDigitsAux_padDigits w 0 n 0 rest h
  simpa using h0

theorem digitsVal_append_singleton (s : Str) (c : Char) :
    digitsVal (s ++ [c]) = digitsVal s * 10 + digitVal c := by
  simp [digitsVal, List.foldl_append]

theorem trim_append_zero (s : Str) :
    trimTrailingZeros (s ++ ['0']) = trimTrailingZeros s := by
  unfold trimTrailingZeros
  simp [List.dropWhile_cons]

theorem trim_append_nonzero (s : Str) (c : Char) (h : c ≠ '0') :
    trimTrailingZeros (s ++ [c]) = s ++ [c] := by
  unfold trimTrailingZeros
  have hc : (c == '0') = false := by simpa using h
  simp [List.dropWhile_cons, hc]

theorem trim_spec : ∀ s : Str,
    (trimTrailingZeros s).length ≤ s.length ∧
    digitsVal (trimTrailingZeros s) * 10 ^ (s.length - (trimTrailingZeros s).length) =
      digitsVal s ∧
    (digitsVal s ≠ 0 → trimTrailingZeros s ≠ []) := by
  intro s
  induction s using List.reverseRecOn with
  | nil => exact ⟨Nat.le_refl _, by simp [trimTrailingZeros, digitsVal], by simp [digitsVal]⟩
  | append_singleton s c ih =>
    obtain ⟨ih1, ih2, ih3⟩ := ih
    by_cases hc : c = '0'
    · subst hc
      rw [trim_append_zero]
      have hv : digitsVal (s ++ ['0']) = digitsVal s * 10 := by
        rw [digitsVal_append_singleton]
        have : digitVal '0' = 0 := rfl
        omega
      refine ⟨by simp; omega, ?_, ?_⟩
      · rw [hv]
        have hlen : (s ++ ['0']).length = s.length + 1 := by simp
        rw [hlen]
        have hexp : s.length + 1 - (trimTrailingZeros s).length =
            (s.length - (trimTrailingZeros s).length) + 1 := by omega
        rw [hexp, pow_succ, ← Nat.mul_assoc, ih2]
      · intro hnz
        rw [hv] at hnz
        exact ih3 (by omega)
    · rw [trim_append_nonzero s c hc]
      exact ⟨Nat.le_refl _, by simp, fun _ => by simp⟩

theorem mem_trim {s : Str} {c : Char} (h : c ∈ trimTrailingZeros s) : c ∈ s := by
  unfold trimTrailingZeros at h
  rw [List.mem_reverse] at h
  have hsub : (s.reverse.dropWhile (· == '0')).Sublist s.reverse := List.dropWhile_sublist _
  exact List.mem_reverse.mp (hsub.subset h)

theorem takeWhile_digits_append : ∀ (l rest : Str), (∀ c ∈ l, isDigitChar c = true) →
    (l ++ 'Z' :: rest).takeWhile isDigitChar = l ∧
    (l ++ 'Z' :: rest).dropWhile isDigitChar = 'Z' :: rest := by
  intro l
  induction l with
  | nil =>
    intro rest _
    have hZ : isDigitChar 'Z' = false := rfl
    constructor <;> simp [List.takeWhile_cons, List.dropWhile_cons, hZ]
  | cons c cs ih =>
    intro rest hall
    have hc := hall c (List.mem_cons_self _ _)
    have ihr := ih rest (fun x hx => hall x (List.mem_cons_of_mem _ hx))
    constructor <;> simp [List.takeWhile_cons, List.dropWhile_cons, hc, ihr.1, ihr.2]

theorem parseFracOpt_fracPart (ns : Nat) (rest : Str) (h : ns < 1000000000) :
    parseFracOpt (fracPart ns ++ 'Z' :: rest) = some (ns, 'Z' :: rest) := by
  by_cases h0 : ns = 0
  · subst h0
    rfl
  · have hfp : fracPart ns = '.' :: trimTrailingZeros (padDigits 9 ns) := by
      simp [fracPart, h0]
    rw [hfp, List.cons_append]
    obtain ⟨hlen, hval, hne⟩ := trim_spec (padDigits 9 ns)
    have hdig : ∀ c ∈ trimTrailingZeros (padDigits 9 ns), isDigitChar c = true :=
      fun c hc => mem_padDigits_isDigit 9 ns c (mem_trim hc)
    obtain ⟨htake, hdrop⟩ := takeWhile_digits_append _ rest hdig
    have hpow : (10 : Nat) ^ 9 = 1000000000 := by norm_num
    have hpd : digitsVal (padDigits 9 ns) = ns := digitsVal_padDigits 9 ns (by omega)
    have hlen9 : (padDigits 9 ns).length = 9 := padDigits_length 9 ns
    have htne : trimTrailingZeros (padDigits 9 ns) ≠ [] := hne (by rw [hpd]; exact h0)
    have hlenle : (trimTrailingZeros (padDigits 9 ns)).length ≤ 9 := by
      rw [hlen9] at hlen; exact hlen
    have hlenpos : (trimTrailingZeros (padDigits 9 ns)).length ≠ 0 := by
      simpa [List.length_eq_zero] using htne
    simp only [parseFracOpt, htake, hdrop]
    have hc1 : ((trimTrailingZeros (padDigits 9 ns)).length == 0) = false := by
      simpa using hlenpos
    have hc2 : decide (9 < (trimTrailingZeros (padDigits 9 ns)).length) = false := by
      simpa using Nat.not_lt.mpr hlenle
    simp only [hc1, hc2, Bool.or_self, Bool.false_eq_true, if_false]
    rw [hlen9] at hval
    rw [hval, hpd]

theorem expectChar_self (c : Char) (rest : Str) : expectChar c (c :: rest) = some rest := by
  simp [expectChar]

theorem formatRFC3339Nano_eq (d : DateTime) :
    formatRFC3339Nano d =
      padDigits 4 d.year ++ ('-' :: (padDigits 2 d.month ++ ('-' :: (padDigits 2 d.day ++
        ('T' :: (padDigits 2 d.hour ++ (':' :: (padDigits 2 d.minute ++
          (':' :: (padDigits 2 d.second ++ (fracPart d.nsec ++ ['Z']))))))))))) := by
  simp [formatRFC3339Nano, List.append_assoc]

theorem daysInMonth_le (y m : Nat) : daysInMonth y m ≤ 31 := by
  unfold daysInMonth
  split <;> first | omega | (split <;> omega)

theorem parse_format_roundtrip (d : DateTime) (h : storable d = true) :
    parseRFC3339Nano (formatRFC3339Nano d) = some d := by
  obtain ⟨y, mo, dy, hr, mi, se, ns⟩ := d
  have h' := h
  unfold storable at h'
  simp only [Bool.and_eq_true] at h'
  have hvd : validDate ⟨y, mo, dy, hr, mi, se, ns⟩ = true := h'.2
  unfold storable validDate at h
  simp only [Bool.and_eq_true, decide_eq_true_eq] at h
  obtain ⟨hy, ⟨⟨⟨⟨⟨⟨⟨hmo1, hmo2⟩, hdy1⟩, hdy2⟩, hhr⟩, hmi⟩, hse⟩, hns⟩⟩ := h
  have hdmle : daysInMonth y mo ≤ 31 := daysInMonth_le y mo
  have e2 : (10 : Nat) ^ 2 = 100 := by norm_num
  have e4 : (10 : Nat) ^ 4 = 10000 := by norm_num
  have hy' : y < 10 ^ 4 := by omega
  have hmo' : mo < 10 ^ 2 := by omega
  have hdy' : dy < 10 ^ 2 := by omega
  have hhr' : hr < 10 ^ 2 := by omega
  have hmi' : mi < 10 ^ 2 := by omega
  have hse' : se < 10 ^ 2 := by omega
  rw [formatRFC3339Nano_eq]
  simp only [parseRFC3339Nano, Option.bind_eq_bind, Option.some_bind,
    readDigits_padDigits, expectChar_self, parseFracOpt_fracPart,
    hy', hmo', hdy', hhr', hmi', hse', hns, List.isEmpty_nil, hvd, if_true]

/-- C7: ledger timestamp round-trip — for every RFC-3339-expressible
instant (four-digit year, valid civil fields, nanosecond precision),
writing with `formatTime` and reading with `parseTime` yields the same
instant presented in UTC, whatever display offset the written value
carried; the zero instant is written as the empty string and read back as
the zero instant. -/
theorem ledger_time_roundtrip (t : GoTime) (h : storable t.dt = true) :
    parseTime (formatTime t) = some ⟨t.dt, 0⟩ := by
  cases hz : t.isZero with
  | true =>
    have hdt : t.dt = DateTime.zero := by
      simpa [GoTime.isZero] using hz
    simp [formatTime, hz, parseTime, GoTime.zero, hdt]
  | false =>
    have hnonempty : (formatRFC3339Nano t.utc.dt).isEmpty = false := by
      rw [formatRFC3339Nano_eq]
      simp [List.isEmpty_iff]
    simp only [formatTime, hz, Bool.false_eq_true, if_false]
    unfold parseTime
    rw [hnonempty]
    simp only [Bool.false_eq_true, if_false]
    have hroundtrip := parse_format_roundtrip t.dt h
    have hutc : t.utc.dt = t.dt := rfl
    rw [hutc, hroundtrip]
    rfl

/-- C7 (witness): the round-trip at a sub-millisecond instant carried with
a non-UTC display offset, and at the zero instant. -/
theorem ledger_time_roundtrip_witness :
    parseTime (formatTime ⟨⟨2026, 10, 11, 6, 30, 5, 123000000⟩, 120⟩) =
      some ⟨⟨2026, 10, 11, 6, 30, 5, 123000000⟩, 0⟩ ∧
    parseTime (formatTime ⟨DateTime.zero, 0⟩) = some ⟨DateTime.zero, 0⟩ :=
  ⟨ledger_time_roundtrip _ (by decide), ledger_time_roundtrip _ (by decide)⟩
